import Mathlib

/-!
Shallow embedding of `yisona.py`: a key-value accessor over JSON documents
with dot-notated nested key paths (`YisonaLocal`), a SQLite passthrough
(`get_sqlite`), and a thin remote HTTP variant (`YisonaConnect`).

Python values appearing in a loaded JSON document are modelled by `JVal`.
Python `dict`s (JSON objects) are modelled as insertion-ordered association
lists with the update/delete behaviour of CPython dicts (update keeps the
entry position, insertion appends at the end, deletion removes the entry).
Python `None` and JSON `null` are both `JVal.null`; floats are idealized as
`PyFloat` (an exact rational, an infinity, or a NaN marker), which keeps the
int-versus-float distinction that `isinstance` checks in the source observe.
-/

/-- Idealized Python float: exact rational magnitude, infinities, NaN. -/
inductive PyFloat where
  | finite (q : Rat)
  | inf (neg : Bool)
  | nan
  deriving DecidableEq

/-- A Python value held in a loaded JSON document (`self.data` and its parts). -/
inductive JVal where
  | null
  | bool (b : Bool)
  | vint (n : Int)
  | vfloat (x : PyFloat)
  | vstr (s : String)
  | arr (elems : List JVal)
  | obj (entries : List (String × JVal))

/-- A Python dict with string keys, as an insertion-ordered association list. -/
abbrev JDict := List (String × JVal)

/-- `isinstance(value, dict)`: whether a value is a mapping. -/
def JVal.isObj : JVal → Bool
  | JVal.obj _ => true
  | _ => false

/-- `d.get(k)` on a Python dict: the value at `k`, if present. -/
def dictGet : JDict → String → Option JVal
  | [], _ => none
  | (k', v) :: rest, k => if k' = k then some v else dictGet rest k

/-- `k in d` on a Python dict. -/
def dictMem (m : JDict) (k : String) : Bool :=
  (dictGet m k).isSome

/-- `d[k] = v` on a Python dict: update in place if present, else append. -/
def dictSet : JDict → String → JVal → JDict
  | [], k, v => [(k, v)]
  | (k', w) :: rest, k, v =>
    if k' = k then (k, v) :: rest else (k', w) :: dictSet rest k v

/-- `del d[k]` on a Python dict: remove the entry at `k`. -/
def dictDel : JDict → String → JDict
  | [], _ => []
  | (k', w) :: rest, k =>
    if k' = k then rest else (k', w) :: dictDel rest k

/-- Helper for `splitDot`: accumulates the current segment (reversed). -/
def splitDotAux : List Char → List Char → List String
  | [], acc => [String.mk acc.reverse]
  | c :: cs, acc =>
    if c = '.' then String.mk acc.reverse :: splitDotAux cs []
    else splitDotAux cs (c :: acc)

/-- Python `str.split('.')`: dot-separated segments, empty segments kept,
`"".split('.') = [""]`. Every method of the source first applies this to its
key argument. -/
def splitDot (s : String) : List String :=
  splitDotAux s.toList []

/-- The read loop of `YisonaLocal.get_json`: descend through successive
mapping lookups; a missing segment yields `None` (here `.null`, since Python
conflates an absent key with a stored JSON null), and a non-mapping
intermediate with segments left ends the walk with `None`. -/
def getPath : JVal → List String → JVal
  | v, [] => v
  | JVal.obj m, k :: ks => getPath ((dictGet m k).getD JVal.null) ks
  | _, _ :: _ => JVal.null

/-- One navigation step of `write_json`/`cc`: the mapping the walk descends
into at segment `k` — the existing child when `current[k]` is a dict, and a
fresh empty dict when the key is missing or holds a non-mapping value (the
`if k not in current or not isinstance(current[k], dict): current[k] = {}`
step of the source). -/
def childDict (m : JDict) (k : String) : JDict :=
  match dictGet m k with
  | some (JVal.obj c) => c
  | _ => []

/-- The write loop of `YisonaLocal.write_json`: for every non-terminal
segment, keep the existing child mapping if there is one, otherwise (missing
or non-mapping value) replace it with a fresh empty mapping; at the terminal
segment assign the value. -/
def setPath : JDict → List String → JVal → JDict
  | m, [], _ => m
  | m, [k], v => dictSet m k v
  | m, k :: ks, v => dictSet m k (JVal.obj (setPath (childDict m k) ks v))

/-- The loop of `YisonaLocal.cc`: navigate/create intermediates exactly like
`setPath`; at the terminal segment, if the key exists return `true` ("existed")
without assigning, otherwise assign the default and return `false`
("did not exist, now created"). -/
def ccPath : JDict → List String → JVal → JDict × Bool
  | m, [], _ => (m, true)
  | m, [k], dv =>
    if dictMem m k then (m, true) else (dictSet m k dv, false)
  | m, k :: ks, dv =>
    let r := ccPath (childDict m k) ks dv
    (dictSet m k (JVal.obj r.1), r.2)

/-- Whether `YisonaLocal.cc` would find the terminal segment absent from its
parent mapping after its create-intermediates navigation (the condition under
which `cc` assigns the default). -/
def terminalAbsent : JDict → List String → Bool
  | _, [] => false
  | m, [k] => !(dictMem m k)
  | m, k :: ks => terminalAbsent (childDict m k) ks

/-- The loop of `YisonaLocal.delete_json`: walk through existing mappings
only (`isinstance(current, dict) and k in current`), never creating
intermediates; if the walk fails, or the terminal key is absent or its parent
is not a mapping, report failure without mutation; otherwise delete the
terminal entry. The `Bool` argument is whether the `json.dump` persistence
step succeeds (the source returns `False` on `IOError` even after deleting
in memory). -/
def delPath : JVal → List String → Bool → JVal × Bool
  | d, [], _ => (d, false)
  | JVal.obj m, [k], persistOk =>
    if dictMem m k then (JVal.obj (dictDel m k), persistOk)
    else (JVal.obj m, false)
  | JVal.obj m, k :: ks, persistOk =>
    match dictGet m k with
    | some child =>
      let r := delPath child ks persistOk
      (JVal.obj (dictSet m k r.1), r.2)
    | none => (JVal.obj m, false)
  | d, _ :: _, _ => (d, false)

/-- The whitespace Python's `float(str)` strips from both ends. -/
def isPySpace (c : Char) : Bool :=
  c = ' ' || c = '\t' || c = '\n' || c = '\r' || c = '\x0b' || c = '\x0c'

/-- Consume a run of decimal digits, with single underscores allowed between
digits as in Python numeric literals; returns the accumulated value, the
number of digits consumed, and the remaining characters. -/
def digitsAux : Nat → Nat → List Char → Nat × Nat × List Char
  | acc, cnt, [] => (acc, cnt, [])
  | acc, cnt, c :: cs =>
    if c.isDigit then digitsAux (10 * acc + (c.toNat - 48)) (cnt + 1) cs
    else if c = '_' then
      match cs with
      | d :: cs' =>
        if d.isDigit then digitsAux (10 * acc + (d.toNat - 48)) (cnt + 1) cs'
        else (acc, cnt, c :: cs)
      | [] => (acc, cnt, [c])
    else (acc, cnt, c :: cs)

/-- A digit run must start with a digit (not an underscore). -/
def parseDigits (cs : List Char) : Option (Nat × Nat × List Char) :=
  match cs with
  | c :: _ => if c.isDigit then some (digitsAux 0 0 cs) else none
  | [] => none

/-- The mantissa of Python's float grammar: `digits`, `digits.`,
`digits.digits`, or `.digits`. -/
def parseNumber (cs : List Char) : Option (Rat × List Char) :=
  match parseDigits cs with
  | some (n, _, rest) =>
    match rest with
    | '.' :: rest' =>
      match parseDigits rest' with
      | some (f, fc, rest'') =>
        some ((n : Rat) + (f : Rat) / ((10 : Rat) ^ fc), rest'')
      | none => some ((n : Rat), rest')
    | _ => some ((n : Rat), rest)
  | none =>
    match cs with
    | '.' :: rest' =>
      match parseDigits rest' with
      | some (f, fc, rest'') =>
        some ((f : Rat) / ((10 : Rat) ^ fc), rest'')
      | none => none
    | _ => none

/-- The exponent part after the `e`/`E`: optional sign then digits, which
must consume the rest of the input. -/
def parseExp (cs : List Char) : Option Int :=
  let stripped : Bool × List Char :=
    match cs with
    | '+' :: r => (false, r)
    | '-' :: r => (true, r)
    | _ => (false, cs)
  match parseDigits stripped.2 with
  | some (e, _, []) => some (if stripped.1 then -(e : Int) else (e : Int))
  | _ => none

/-- Model of Python's `float(str)` as used by `get_json_as_number`: strip
whitespace, optional sign, then case-insensitive `inf`/`infinity`/`nan` or a
decimal mantissa with optional exponent; anything else raises `ValueError`
(here `none`). Rounding to IEEE double is idealized away: finite results are
exact rationals. -/
def pyFloatOfString (s : String) : Option PyFloat :=
  let cs0 := ((s.toList.dropWhile isPySpace).reverse.dropWhile isPySpace).reverse
  let signed : Bool × List Char :=
    match cs0 with
    | '+' :: r => (false, r)
    | '-' :: r => (true, r)
    | _ => (false, cs0)
  let neg := signed.1
  let cs := signed.2
  let lower := cs.map Char.toLower
  if lower = ['i', 'n', 'f'] || lower = ['i', 'n', 'f', 'i', 'n', 'i', 't', 'y'] then
    some (PyFloat.inf neg)
  else if lower = ['n', 'a', 'n'] then
    some PyFloat.nan
  else
    match parseNumber cs with
    | some (q, rest) =>
      match rest with
      | [] => some (PyFloat.finite (if neg then -q else q))
      | 'e' :: r =>
        match parseExp r with
        | some e =>
          let q' := q * (10 : Rat) ^ e
          some (PyFloat.finite (if neg then -q' else q'))
        | none => none
      | 'E' :: r =>
        match parseExp r with
        | some e =>
          let q' := q * (10 : Rat) ^ e
          some (PyFloat.finite (if neg then -q' else q'))
        | none => none
      | _ => none
    | none => none

namespace YisonaLocal

/-- What `json.load` produced for the backing file in `__init__`:
the file was missing (`FileNotFoundError`), held invalid JSON
(`json.JSONDecodeError`), or parsed to a value. -/
inductive FileContent where
  | missing
  | invalid
  | parsed (v : JVal)

/-- `self.data` right after `YisonaLocal.__init__`: a parsed document is kept
as is; a missing file and invalid JSON both fall back to the empty dict `{}`
(the exceptions are caught, only a diagnostic is printed). -/
def loadData : FileContent → JVal
  | FileContent.missing => JVal.obj []
  | FileContent.invalid => JVal.obj []
  | FileContent.parsed v => v

/-- `YisonaLocal.get_json(key)`: split the key on dots and walk the document. -/
def get_json (d : JVal) (key : String) : JVal :=
  getPath d (splitDot key)

/-- `YisonaLocal.write_json(key, value)` on a dict-rooted document: mutate
`self.data` along the path, then attempt to persist; the return value is the
success of the `json.dump` step (modelled by `persistOk`), while the mutation
has already happened either way. -/
def write_json (m : JDict) (key : String) (v : JVal) (persistOk : Bool) :
    JDict × Bool :=
  (setPath m (splitDot key) v, persistOk)

/-- `YisonaLocal.create_json(key, value)` simply delegates to `write_json`. -/
def create_json (m : JDict) (key : String) (v : JVal) (persistOk : Bool) :
    JDict × Bool :=
  write_json m key v persistOk

/-- `YisonaLocal.cc(key, default_value)` on a dict-rooted document.
`persistOk` models whether the `json.dump` in the creation branch succeeds;
the source returns `False` on that branch in both cases (it returns `True`
only when the terminal key already existed), and the in-memory mutation
precedes the dump, so the result does not depend on `persistOk`. -/
def cc (m : JDict) (key : String) (dv : JVal) (_persistOk : Bool) :
    JDict × Bool :=
  ccPath m (splitDot key) dv

/-- `YisonaLocal.delete_json(key)`: returns the (possibly) mutated document
and the reported success. -/
def delete_json (d : JVal) (key : String) (persistOk : Bool) : JVal × Bool :=
  delPath d (splitDot key) persistOk

/-- `YisonaLocal.get_json_as_number(key)`: `get_json`, returned unchanged when
`isinstance(value, (int, float))` — which in Python also admits `bool`, a
subclass of `int` — otherwise `float(value)`, whose `ValueError`/`TypeError`
(non-numeric strings, `None`, dicts, lists) is caught and turned into `None`. -/
def get_json_as_number (d : JVal) (key : String) : Option JVal :=
  match get_json d key with
  | JVal.vint n => some (JVal.vint n)
  | JVal.vfloat x => some (JVal.vfloat x)
  | JVal.bool b => some (JVal.bool b)
  | JVal.vstr s => (pyFloatOfString s).map JVal.vfloat
  | JVal.null => none
  | JVal.arr _ => none
  | JVal.obj _ => none

/-- Observable events of one `YisonaLocal.get_sqlite` call, in order. -/
inductive SqlEvent where
  | connectOk
  | connectFail
  | executeOk
  | executeFail
  | fetchFail
  | close
  deriving DecidableEq

/-- How the external SQLite engine behaves during one `get_sqlite` call:
`sqlite3.connect` raises, `cursor.execute` raises, `cursor.fetchall` raises,
or everything succeeds with the given rows. -/
inductive SqlOutcome where
  | connectErr
  | execErr
  | fetchErr
  | ok (rows : List (List JVal))

/-- `YisonaLocal.get_sqlite(db_path, query)`: the event trace and the return
value. The body runs `connect; cursor; execute; fetchall; close; return rows`
inside a `try`, and the `except sqlite3.Error` handler only prints and
returns `[]` — it does not run `connection.close()`, so no `close` event
occurs on the caught-error paths. -/
def get_sqlite : SqlOutcome → List SqlEvent × List (List JVal)
  | SqlOutcome.connectErr => ([SqlEvent.connectFail], [])
  | SqlOutcome.execErr => ([SqlEvent.connectOk, SqlEvent.executeFail], [])
  | SqlOutcome.fetchErr =>
    ([SqlEvent.connectOk, SqlEvent.executeOk, SqlEvent.fetchFail], [])
  | SqlOutcome.ok rows =>
    ([SqlEvent.connectOk, SqlEvent.executeOk, SqlEvent.close], rows)

end YisonaLocal

namespace YisonaConnect

/-- The outcome of one HTTP request issued by `YisonaConnect`: a 200 response
with a parsed JSON body, a non-200 response, or a raised transport exception
(caught by the `except Exception` handler). -/
inductive HttpResult where
  | ok (body : JVal)
  | errResp (code : Nat)
  | exn

/-- `YisonaConnect.get_json(key)` with a key argument, given the outcome of
the GET request. On 200 the code runs `data.get(key)` — a flat lookup of the
literal dot-path string in the response mapping, with no nested traversal.
A falsy key (the empty string) omits the `key` query parameter and returns
the whole body. A non-dict 200 body makes `data.get` raise, which the
`except Exception` handler turns into `None`; non-200 and transport failures
also return `None` (here `.null`). -/
def get_json (resp : HttpResult) (key : String) : JVal :=
  match resp with
  | HttpResult.ok body =>
    if key = "" then body
    else
      match body with
      | JVal.obj m => (dictGet m key).getD JVal.null
      | _ => JVal.null
  | HttpResult.errResp _ => JVal.null
  | HttpResult.exn => JVal.null

/-- `YisonaConnect.cc(key, default_value)`: reads the key with `get_json`;
`if value is None` it calls `write_json(key, default_value)` and returns
`False`, else returns `True` without writing. The result is the pair
(returned boolean, whether the default was written). -/
def cc (resp : HttpResult) (key : String) (_dv : JVal) : Bool × Bool :=
  match get_json resp key with
  | JVal.null => (false, true)
  | _ => (true, false)

end YisonaConnect

/-! ### Dictionary lemmas -/

theorem dictGet_dictSet_self (m : JDict) (k : String) (v : JVal) :
    dictGet (dictSet m k v) k = some v := by
  induction m with
  | nil => simp [dictSet, dictGet]
  | cons kv rest ih =>
    obtain ⟨k', w⟩ := kv
    by_cases h : k' = k
    · simp [dictSet, dictGet, h]
    · simp [dictSet, dictGet, h, ih]

theorem dictGet_dictSet_ne (m : JDict) (k k' : String) (v : JVal)
    (h : k' ≠ k) : dictGet (dictSet m k v) k' = dictGet m k' := by
  induction m with
  | nil => simp [dictSet, dictGet, Ne.symm h]
  | cons kv rest ih =>
    obtain ⟨k0, w⟩ := kv
    by_cases h0 : k0 = k
    · subst h0
      simp [dictSet, dictGet, Ne.symm h]
    · by_cases h1 : k0 = k'
      · simp [dictSet, dictGet, h0, h1, h]
      · simp [dictSet, dictGet, h0, h1, ih]

theorem dictMem_dictSet_self (m : JDict) (k : String) (v : JVal) :
    dictMem (dictSet m k v) k = true := by
  simp [dictMem, dictGet_dictSet_self]

theorem dictSet_same (m : JDict) (k : String) (v : JVal)
    (h : dictGet m k = some v) : dictSet m k v = m := by
  induction m with
  | nil => simp [dictGet] at h
  | cons kv rest ih =>
    obtain ⟨k0, w⟩ := kv
    by_cases h0 : k0 = k
    · subst h0
      simp [dictGet] at h
      simp [dictSet, h]
    · simp [dictGet, h0] at h
      simp [dictSet, h0, ih h]

theorem dictGet_dictDel_ne (m : JDict) (k k' : String)
    (h : k' ≠ k) : dictGet (dictDel m k) k' = dictGet m k' := by
  induction m with
  | nil => simp [dictDel]
  | cons kv rest ih =>
    obtain ⟨k0, w⟩ := kv
    by_cases h0 : k0 = k
    · subst h0
      simp [dictDel, dictGet, Ne.symm h]
    · by_cases h1 : k0 = k'
      · simp [dictDel, dictGet, h0, h1, h]
      · simp [dictDel, dictGet, h0, h1, ih]

theorem dictGet_eq_none_of_not_mem (m : JDict) (k : String)
    (h : k ∉ m.map Prod.fst) : dictGet m k = none := by
  induction m with
  | nil => simp [dictGet]
  | cons kv rest ih =>
    obtain ⟨k0, w⟩ := kv
    simp only [List.map_cons, List.mem_cons] at h
    push_neg at h
    simp [dictGet, Ne.symm h.1, ih h.2]

theorem dictGet_dictDel_self (m : JDict) (k : String)
    (h : (m.map Prod.fst).Nodup) : dictGet (dictDel m k) k = none := by
  induction m with
  | nil => simp [dictDel, dictGet]
  | cons kv rest ih =>
    obtain ⟨k0, w⟩ := kv
    simp only [List.map_cons, List.nodup_cons] at h
    by_cases h0 : k0 = k
    · subst h0
      simpa [dictDel] using dictGet_eq_none_of_not_mem rest k0 h.1
    · simp [dictDel, dictGet, h0, ih h.2]

/-! ### Key splitting and path traversal lemmas -/

theorem splitDotAux_ne_nil (cs acc : List Char) : splitDotAux cs acc ≠ [] := by
  induction cs generalizing acc with
  | nil => simp [splitDotAux]
  | cons c cs ih =>
    by_cases h : c = '.'
    · simp [splitDotAux, h]
    · simpa [splitDotAux, h] using ih (c :: acc)

theorem splitDot_ne_nil (s : String) : splitDot s ≠ [] :=
  splitDotAux_ne_nil s.toList []

theorem getPath_nil (v : JVal) : getPath v [] = v := by
  cases v <;> rfl

theorem getPath_obj_cons (m : JDict) (k : String) (ks : List String) :
    getPath (JVal.obj m) (k :: ks) = getPath ((dictGet m k).getD JVal.null) ks :=
  rfl

theorem getPath_null (qs : List String) : getPath JVal.null qs = JVal.null := by
  cases qs <;> rfl

theorem getPath_append (as bs : List String) (d : JVal) :
    getPath d (as ++ bs) = getPath (getPath d as) bs := by
  induction as generalizing d with
  | nil => rw [List.nil_append, getPath_nil]
  | cons a as ih =>
    cases d with
    | obj m => rw [List.cons_append, getPath_obj_cons, getPath_obj_cons, ih]
    | null => exact (getPath_null _).symm
    | bool b => exact (getPath_null _).symm
    | vint n => exact (getPath_null _).symm
    | vfloat x => exact (getPath_null _).symm
    | vstr s => exact (getPath_null _).symm
    | arr xs => exact (getPath_null _).symm

theorem setPath_single (m : JDict) (k : String) (v : JVal) :
    setPath m [k] v = dictSet m k v := rfl

theorem setPath_cons (m : JDict) (k0 : String) (ks : List String)
    (h : ks ≠ []) (v : JVal) :
    setPath m (k0 :: ks) v
      = dictSet m k0 (JVal.obj (setPath (childDict m k0) ks v)) := by
  cases ks with
  | nil => exact absurd rfl h
  | cons a as => rfl

theorem ccPath_single (m : JDict) (k : String) (dv : JVal) :
    ccPath m [k] dv
      = if dictMem m k then (m, true) else (dictSet m k dv, false) := rfl

theorem ccPath_cons (m : JDict) (k0 : String) (ks : List String)
    (h : ks ≠ []) (dv : JVal) :
    ccPath m (k0 :: ks) dv
      = (dictSet m k0 (JVal.obj (ccPath (childDict m k0) ks dv).1),
         (ccPath (childDict m k0) ks dv).2) := by
  cases ks with
  | nil => exact absurd rfl h
  | cons a as => rfl

theorem terminalAbsent_single (m : JDict) (k : String) :
    terminalAbsent m [k] = !(dictMem m k) := rfl

theorem terminalAbsent_cons (m : JDict) (k0 : String) (ks : List String)
    (h : ks ≠ []) :
    terminalAbsent m (k0 :: ks) = terminalAbsent (childDict m k0) ks := by
  cases ks with
  | nil => exact absurd rfl h
  | cons a as => rfl

theorem delPath_single (m : JDict) (k : String) (pOk : Bool) :
    delPath (JVal.obj m) [k] pOk
      = if dictMem m k then (JVal.obj (dictDel m k), pOk)
        else (JVal.obj m, false) := rfl

theorem delPath_cons (m : JDict) (k0 : String) (ks : List String)
    (h : ks ≠ []) (pOk : Bool) :
    delPath (JVal.obj m) (k0 :: ks) pOk
      = match dictGet m k0 with
        | some child =>
          (JVal.obj (dictSet m k0 (delPath child ks pOk).1),
           (delPath child ks pOk).2)
        | none => (JVal.obj m, false) := by
  cases ks with
  | nil => exact absurd rfl h
  | cons a as => rfl

theorem childDict_dictSet_obj (m : JDict) (k : String) (c : JDict) :
    childDict (dictSet m k (JVal.obj c)) k = c := by
  simp [childDict, dictGet_dictSet_self]

theorem getPath_setPath (ks : List String) (m : JDict) (v : JVal)
    (h : ks ≠ []) : getPath (JVal.obj (setPath m ks v)) ks = v := by
  induction ks generalizing m with
  | nil => exact absurd rfl h
  | cons k ks ih =>
    cases ks with
    | nil =>
      simp [setPath_single, getPath_obj_cons, dictGet_dictSet_self, getPath_nil]
    | cons k2 ks2 =>
      rw [setPath_cons m k (k2 :: ks2) (by simp) v, getPath_obj_cons,
        dictGet_dictSet_self]
      exact ih _ (by simp)

theorem setPath_ancestor_obj (ks : List String) (m : JDict) (v : JVal)
    (i : Nat) (h : i < ks.length) :
    ∃ mm : JDict, getPath (JVal.obj (setPath m ks v)) (ks.take i)
      = JVal.obj mm := by
  induction ks generalizing m i with
  | nil => simp at h
  | cons k ks ih =>
    cases i with
    | zero => exact ⟨setPath m (k :: ks) v, by rw [List.take_zero, getPath_nil]⟩
    | succ j =>
      cases ks with
      | nil => simp at h
      | cons k2 ks2 =>
        rw [setPath_cons m k (k2 :: ks2) (by simp) v, List.take_succ_cons,
          getPath_obj_cons, dictGet_dictSet_self]
        exact ih _ j (by simpa using h)

/-! ### `delete_json` lemmas -/

theorem delPath_not_found (pks : List String) (d : JVal) (k : String)
    (pOk : Bool)
    (h : ∀ pm : JDict, getPath d pks = JVal.obj pm → dictMem pm k = false) :
    delPath d (pks ++ [k]) pOk = (d, false) := by
  induction pks generalizing d with
  | nil =>
    cases d with
    | obj m =>
      have hm := h m (getPath_nil _)
      rw [List.nil_append, delPath_single]
      simp [hm]
    | null => rfl
    | bool b => rfl
    | vint n => rfl
    | vfloat x => rfl
    | vstr s => rfl
    | arr xs => rfl
  | cons k0 pks' ih =>
    cases d with
    | obj m =>
      rw [List.cons_append, delPath_cons m k0 (pks' ++ [k]) (by simp) pOk]
      rcases hg : dictGet m k0 with _ | child
      · rfl
      · have hh : ∀ pm : JDict,
            getPath child pks' = JVal.obj pm → dictMem pm k = false := by
          intro pm hp
          apply h pm
          rw [getPath_obj_cons, hg, Option.getD_some]
          exact hp
        show (JVal.obj (dictSet m k0 (delPath child (pks' ++ [k]) pOk).1),
            (delPath child (pks' ++ [k]) pOk).2) = (JVal.obj m, false)
        rw [ih child hh]
        simp [dictSet_same m k0 child hg]
    | null => rfl
    | bool b => rfl
    | vint n => rfl
    | vfloat x => rfl
    | vstr s => rfl
    | arr xs => rfl

theorem delPath_found (pks : List String) (d : JVal) (k : String) (pm : JDict)
    (pOk : Bool) (hp : getPath d pks = JVal.obj pm) (hm : dictMem pm k = true) :
    (delPath d (pks ++ [k]) pOk).2 = pOk
      ∧ getPath (delPath d (pks ++ [k]) pOk).1 pks = JVal.obj (dictDel pm k)
      ∧ (∀ qs : List String, pks.take qs.length ≠ qs →
          qs.take pks.length ≠ pks →
          getPath (delPath d (pks ++ [k]) pOk).1 qs = getPath d qs) := by
  induction pks generalizing d with
  | nil =>
    rw [getPath_nil] at hp
    subst hp
    rw [List.nil_append, delPath_single, if_pos hm]
    refine ⟨rfl, getPath_nil _, ?_⟩
    intro qs h1 h2
    simp at h2
  | cons k0 pks' ih =>
    cases d with
    | obj m =>
      rw [getPath_obj_cons] at hp
      rcases hg : dictGet m k0 with _ | child
      · rw [hg, Option.getD_none, getPath_null] at hp
        exact absurd hp (by simp)
      · rw [hg, Option.getD_some] at hp
        have IH := ih child hp
        rw [List.cons_append, delPath_cons m k0 (pks' ++ [k]) (by simp) pOk, hg]
        refine ⟨IH.1, ?_, ?_⟩
        · rw [getPath_obj_cons, dictGet_dictSet_self, Option.getD_some]
          exact IH.2.1
        · intro qs h1 h2
          cases qs with
          | nil => simp at h1
          | cons q0 qs' =>
            by_cases hq : q0 = k0
            · subst hq
              have h1' : pks'.take qs'.length ≠ qs' := by
                intro hh
                apply h1
                rw [List.length_cons, List.take_succ_cons, hh]
              have h2' : qs'.take pks'.length ≠ pks' := by
                intro hh
                apply h2
                rw [List.length_cons, List.take_succ_cons, hh]
              rw [getPath_obj_cons, dictGet_dictSet_self, Option.getD_some,
                getPath_obj_cons, hg, Option.getD_some]
              exact IH.2.2 qs' h1' h2'
            · rw [getPath_obj_cons, dictGet_dictSet_ne m k0 q0 _ hq,
                getPath_obj_cons]
    | null =>
      rw [getPath_null] at hp
      exact absurd hp (by simp)
    | bool b =>
      rw [show getPath (JVal.bool b) (k0 :: pks') = JVal.null from rfl] at hp
      exact absurd hp (by simp)
    | vint n =>
      rw [show getPath (JVal.vint n) (k0 :: pks') = JVal.null from rfl] at hp
      exact absurd hp (by simp)
    | vfloat x =>
      rw [show getPath (JVal.vfloat x) (k0 :: pks') = JVal.null from rfl] at hp
      exact absurd hp (by simp)
    | vstr s =>
      rw [show getPath (JVal.vstr s) (k0 :: pks') = JVal.null from rfl] at hp
      exact absurd hp (by simp)
    | arr xs =>
      rw [show getPath (JVal.arr xs) (k0 :: pks') = JVal.null from rfl] at hp
      exact absurd hp (by simp)

/-! ### `cc` lemmas -/

theorem terminalAbsent_empty (k : String) (ks : List String) :
    terminalAbsent ([] : JDict) (k :: ks) = true := by
  induction ks generalizing k with
  | nil => rfl
  | cons k2 ks2 ih => exact ih k2

theorem ccPath_created (ks : List String) (m : JDict) (dv : JVal)
    (h : terminalAbsent m ks = true) :
    (ccPath m ks dv).2 = false
      ∧ getPath (JVal.obj (ccPath m ks dv).1) ks = dv := by
  induction ks generalizing m with
  | nil => simp [terminalAbsent] at h
  | cons k ks ih =>
    cases ks with
    | nil =>
      rw [terminalAbsent_single] at h
      have hm : dictMem m k = false := by simpa using h
      rw [ccPath_single]
      simp [hm, getPath_obj_cons, dictGet_dictSet_self, getPath_nil]
    | cons k2 ks2 =>
      rw [terminalAbsent_cons m k (k2 :: ks2) (by simp)] at h
      rw [ccPath_cons m k (k2 :: ks2) (by simp) dv]
      have hrec := ih (childDict m k) h
      exact ⟨hrec.1, by
        rw [getPath_obj_cons, dictGet_dictSet_self]
        exact hrec.2⟩

theorem ccPath_existed (ks : List String) (m : JDict) (dv : JVal)
    (h : terminalAbsent m ks = false) :
    ccPath m ks dv = (m, true) := by
  induction ks generalizing m with
  | nil => rfl
  | cons k ks ih =>
    cases ks with
    | nil =>
      rw [terminalAbsent_single] at h
      have hm : dictMem m k = true := by simpa using h
      rw [ccPath_single]
      simp [hm]
    | cons k2 ks2 =>
      rw [terminalAbsent_cons m k (k2 :: ks2) (by simp)] at h
      rw [ccPath_cons m k (k2 :: ks2) (by simp) dv]
      rcases hg : dictGet m k with _ | v
      · rw [show childDict m k = [] by simp [childDict, hg]] at h
        rw [terminalAbsent_empty] at h
        exact absurd h (by simp)
      · cases v with
        | obj c =>
          rw [show childDict m k = c by simp [childDict, hg]] at h ⊢
          rw [ih c h]
          simp [dictSet_same m k (JVal.obj c) hg]
        | null =>
          rw [show childDict m k = [] by simp [childDict, hg]] at h
          rw [terminalAbsent_empty] at h
          exact absurd h (by simp)
        | bool b =>
          rw [show childDict m k = [] by simp [childDict, hg]] at h
          rw [terminalAbsent_empty] at h
          exact absurd h (by simp)
        | vint n =>
          rw [show childDict m k = [] by simp [childDict, hg]] at h
          rw [terminalAbsent_empty] at h
          exact absurd h (by simp)
        | vfloat x =>
          rw [show childDict m k = [] by simp [childDict, hg]] at h
          rw [terminalAbsent_empty] at h
          exact absurd h (by simp)
        | vstr s =>
          rw [show childDict m k = [] by simp [childDict, hg]] at h
          rw [terminalAbsent_empty] at h
          exact absurd h (by simp)
        | arr xs =>
          rw [show childDict m k = [] by simp [childDict, hg]] at h
          rw [terminalAbsent_empty] at h
          exact absurd h (by simp)

theorem terminalAbsent_ccPath (ks : List String) (m : JDict) (dv : JVal)
    (h : ks ≠ []) : terminalAbsent (ccPath m ks dv).1 ks = false := by
  induction ks generalizing m with
  | nil => exact absurd rfl h
  | cons k ks ih =>
    cases ks with
    | nil =>
      rw [ccPath_single]
      by_cases hm : dictMem m k = true
      · simp [hm, terminalAbsent_single]
      · have hm' : dictMem m k = false := by simpa using hm
        simp [hm', terminalAbsent_single, dictMem_dictSet_self]
    | cons k2 ks2 =>
      rw [ccPath_cons m k (k2 :: ks2) (by simp) dv]
      rw [terminalAbsent_cons _ k (k2 :: ks2) (by simp)]
      rw [childDict_dictSet_obj]
      exact ih _ (by simp)

theorem ccPath_second (ks : List String) (m : JDict) (d d' : JVal)
    (h : ks ≠ []) :
    ccPath (ccPath m ks d).1 ks d' = ((ccPath m ks d).1, true) :=
  ccPath_existed ks _ d' (terminalAbsent_ccPath ks m d h)

theorem ccPath_ancestor_obj (ks : List String) (m : JDict) (dv : JVal)
    (i : Nat) (h : i < ks.length) :
    ∃ mm : JDict, getPath (JVal.obj (ccPath m ks dv).1) (ks.take i)
      = JVal.obj mm := by
  induction ks generalizing m i with
  | nil => simp at h
  | cons k ks ih =>
    cases i with
    | zero => exact ⟨(ccPath m (k :: ks) dv).1, by rw [List.take_zero, getPath_nil]⟩
    | succ j =>
      cases ks with
      | nil => simp at h
      | cons k2 ks2 =>
        rw [ccPath_cons m k (k2 :: ks2) (by simp) dv]
        dsimp only
        rw [List.take_succ_cons, getPath_obj_cons, dictGet_dictSet_self]
        exact ih _ j (by simpa using h)

/-! ### Claim theorems -/

/-- C1: For every key path `p` and value `v`, `write_json(p, v)` followed by
`get_json(p)` returns `v`, including through previously absent or non-mapping
intermediates; on the document `{"a": {"b": 1}}`, `write_json("a.b.c", 2)`
replaces the integer at `a.b` with the mapping `{"c": 2}` and
`get_json("a.b.c")` then returns `2`. -/
theorem c1_write_then_read_roundtrip :
    (∀ (m : JDict) (p : String) (v : JVal) (persistOk : Bool),
      YisonaLocal.get_json
        (JVal.obj (YisonaLocal.write_json m p v persistOk).1) p = v)
    ∧ YisonaLocal.write_json [("a", JVal.obj [("b", JVal.vint 1)])] "a.b.c"
        (JVal.vint 2) true
      = ([("a", JVal.obj [("b", JVal.obj [("c", JVal.vint 2)])])], true)
    ∧ YisonaLocal.get_json
        (JVal.obj [("a", JVal.obj [("b", JVal.obj [("c", JVal.vint 2)])])])
        "a.b.c" = JVal.vint 2 := by
  refine ⟨?_, by rfl, by rfl⟩
  intro m p v persistOk
  exact getPath_setPath (splitDot p) m v (splitDot_ne_nil p)

/-- C2: a first `cc(p, d)` call whose terminal segment is absent from its
parent mapping returns `false` ("did not exist, now created") and leaves
`get_json(p) = d`; a second `cc(p, d')` on the same path returns `true`
("existed") and leaves the document unchanged. -/
theorem c2_cc_create_then_exists (m : JDict) (p : String) (d d' : JVal)
    (persistOk persistOk' : Bool)
    (h : terminalAbsent m (splitDot p) = true) :
    (YisonaLocal.cc m p d persistOk).2 = false
      ∧ YisonaLocal.get_json
          (JVal.obj (YisonaLocal.cc m p d persistOk).1) p = d
      ∧ YisonaLocal.cc (YisonaLocal.cc m p d persistOk).1 p d' persistOk'
          = ((YisonaLocal.cc m p d persistOk).1, true) := by
  have hc := ccPath_created (splitDot p) m d h
  exact ⟨hc.1, hc.2, ccPath_second (splitDot p) m d d' (splitDot_ne_nil p)⟩

theorem c2_cc_create_then_exists_witness :
    terminalAbsent [] (splitDot "a.b") = true
      ∧ (YisonaLocal.cc [] "a.b" (JVal.vint 7) true).2 = false
      ∧ YisonaLocal.get_json
          (JVal.obj (YisonaLocal.cc [] "a.b" (JVal.vint 7) true).1) "a.b"
        = JVal.vint 7
      ∧ YisonaLocal.cc (YisonaLocal.cc [] "a.b" (JVal.vint 7) true).1 "a.b"
          (JVal.vint 9) true
        = ((YisonaLocal.cc [] "a.b" (JVal.vint 7) true).1, true) := by
  have h : terminalAbsent [] (splitDot "a.b") = true := by rfl
  have hc := c2_cc_create_then_exists [] "a.b" (JVal.vint 7) (JVal.vint 9)
    true true h
  exact ⟨h, hc.1, hc.2.1, hc.2.2⟩

/-- C3: `delete_json(p)` on a path whose parent exists as mappings and whose
terminal key is present removes exactly that key (siblings and every part of
the document not on the deleted path are unchanged) and returns `true`; on a
path whose parent walk or terminal key fails it returns `false` and leaves
the document completely unchanged. -/
theorem c3_delete_exact_removal_and_frame (d : JVal) (p : String)
    (persistOk : Bool) (pks : List String) (k : String)
    (hsplit : splitDot p = pks ++ [k]) :
    (∀ pm : JDict, getPath d pks = JVal.obj pm → dictMem pm k = true →
        (pm.map Prod.fst).Nodup →
        (YisonaLocal.delete_json d p true).2 = true
        ∧ getPath (YisonaLocal.delete_json d p true).1 pks
            = JVal.obj (dictDel pm k)
        ∧ getPath (YisonaLocal.delete_json d p true).1 (pks ++ [k]) = JVal.null
        ∧ (∀ k' : String, k' ≠ k →
            getPath (YisonaLocal.delete_json d p true).1 (pks ++ [k'])
              = getPath d (pks ++ [k']))
        ∧ (∀ qs : List String, pks.take qs.length ≠ qs →
            qs.take pks.length ≠ pks →
            getPath (YisonaLocal.delete_json d p true).1 qs = getPath d qs))
    ∧ ((∀ pm : JDict, getPath d pks = JVal.obj pm → dictMem pm k = false) →
        YisonaLocal.delete_json d p persistOk = (d, false)) := by
  constructor
  · intro pm hp hm hnd
    have hf := delPath_found pks d k pm true hp hm
    have hdel : YisonaLocal.delete_json d p true = delPath d (pks ++ [k]) true := by
      simp only [YisonaLocal.delete_json, hsplit]
    rw [hdel]
    refine ⟨hf.1, hf.2.1, ?_, ?_, hf.2.2⟩
    · rw [getPath_append, hf.2.1, getPath_obj_cons,
        dictGet_dictDel_self pm k hnd, Option.getD_none, getPath_null]
    · intro k' hk'
      rw [getPath_append, hf.2.1, getPath_append, hp, getPath_obj_cons,
        getPath_obj_cons, dictGet_dictDel_ne pm k k' hk']
  · intro h
    have hdel : YisonaLocal.delete_json d p persistOk
        = delPath d (pks ++ [k]) persistOk := by
      simp only [YisonaLocal.delete_json, hsplit]
    rw [hdel]
    exact delPath_not_found pks d k persistOk h

theorem c3_delete_witness :
    (YisonaLocal.delete_json
        (JVal.obj [("a", JVal.obj [("b", JVal.vint 1), ("c", JVal.vint 2)])])
        "a.b" true).2 = true
      ∧ getPath (YisonaLocal.delete_json
          (JVal.obj [("a", JVal.obj [("b", JVal.vint 1), ("c", JVal.vint 2)])])
          "a.b" true).1 (["a"] ++ ["c"])
        = getPath
            (JVal.obj [("a", JVal.obj [("b", JVal.vint 1), ("c", JVal.vint 2)])])
            (["a"] ++ ["c"]) := by
  have h := (c3_delete_exact_removal_and_frame
      (JVal.obj [("a", JVal.obj [("b", JVal.vint 1), ("c", JVal.vint 2)])])
      "a.b" true ["a"] "b" (by rfl)).1
      [("b", JVal.vint 1), ("c", JVal.vint 2)] (by rfl) (by rfl) (by decide)
  exact ⟨h.1, h.2.2.2.1 "c" (by decide)⟩

/-- C4: `get_json_as_number(p)` returns an already numeric stored value
(int or float) unchanged, the parsed float of a numeric-looking stored
string, and `None` for a non-numeric string, a mapping, a sequence, or an
absent key (Python conflates the latter with a stored null). -/
theorem c4_get_json_as_number_cases (d : JVal) (p : String) :
    (∀ n : Int, YisonaLocal.get_json d p = JVal.vint n →
      YisonaLocal.get_json_as_number d p = some (JVal.vint n))
    ∧ (∀ x : PyFloat, YisonaLocal.get_json d p = JVal.vfloat x →
      YisonaLocal.get_json_as_number d p = some (JVal.vfloat x))
    ∧ (∀ s : String, YisonaLocal.get_json d p = JVal.vstr s →
      YisonaLocal.get_json_as_number d p = (pyFloatOfString s).map JVal.vfloat)
    ∧ (∀ mm : JDict, YisonaLocal.get_json d p = JVal.obj mm →
      YisonaLocal.get_json_as_number d p = none)
    ∧ (∀ xs : List JVal, YisonaLocal.get_json d p = JVal.arr xs →
      YisonaLocal.get_json_as_number d p = none)
    ∧ (YisonaLocal.get_json d p = JVal.null →
      YisonaLocal.get_json_as_number d p = none) := by
  refine ⟨?_, ?_, ?_, ?_, ?_, ?_⟩
  · intro n h
    simp [YisonaLocal.get_json_as_number, h]
  · intro x h
    simp [YisonaLocal.get_json_as_number, h]
  · intro s h
    simp [YisonaLocal.get_json_as_number, h]
  · intro mm h
    simp [YisonaLocal.get_json_as_number, h]
  · intro xs h
    simp [YisonaLocal.get_json_as_number, h]
  · intro h
    simp [YisonaLocal.get_json_as_number, h]

theorem c4_number_witness :
    YisonaLocal.get_json_as_number
        (JVal.obj [("a", JVal.vstr "7"), ("b", JVal.vstr "x"),
          ("c", JVal.vint 3)]) "a"
      = some (JVal.vfloat (PyFloat.finite 7))
    ∧ YisonaLocal.get_json_as_number
        (JVal.obj [("a", JVal.vstr "7"), ("b", JVal.vstr "x"),
          ("c", JVal.vint 3)]) "b" = none
    ∧ YisonaLocal.get_json_as_number
        (JVal.obj [("a", JVal.vstr "7"), ("b", JVal.vstr "x"),
          ("c", JVal.vint 3)]) "c" = some (JVal.vint 3) := by
  refine ⟨?_, ?_, ?_⟩
  · have h := (c4_get_json_as_number_cases
      (JVal.obj [("a", JVal.vstr "7"), ("b", JVal.vstr "x"),
        ("c", JVal.vint 3)]) "a").2.2.1 "7" (by rfl)
    rw [h]
    rfl
  · have h := (c4_get_json_as_number_cases
      (JVal.obj [("a", JVal.vstr "7"), ("b", JVal.vstr "x"),
        ("c", JVal.vint 3)]) "b").2.2.1 "x" (by rfl)
    rw [h]
    rfl
  · exact (c4_get_json_as_number_cases
      (JVal.obj [("a", JVal.vstr "7"), ("b", JVal.vstr "x"),
        ("c", JVal.vint 3)]) "c").1 3 (by rfl)

/-- C5 counterexample: the loader accepts a backing file whose content is the
JSON array `[]` (`json.load` parses it without error), and the resulting
in-memory root is not a mapping — refuting "the root is always a mapping …
immediately after construction, for every backing-file content the loader
accepts". -/
theorem c5_root_not_mapping_counterexample :
    JVal.isObj (YisonaLocal.loadData
      (YisonaLocal.FileContent.parsed (JVal.arr []))) = false := rfl

/-- C5 (amended): the root is a mapping after construction whenever the
backing file is missing, invalid, or parses to a mapping (the loader also
accepts non-mapping JSON documents, which yield a non-mapping root);
`create_json` delegates to `write_json`; and after any `write_json` or `cc`
on a mapping-rooted document, every ancestor segment of the written path —
including the root — holds a mapping, non-mapping intermediates having been
replaced by empty mappings. -/
theorem c5_root_mapping_amended :
    (YisonaLocal.loadData YisonaLocal.FileContent.missing = JVal.obj []
      ∧ YisonaLocal.loadData YisonaLocal.FileContent.invalid = JVal.obj []
      ∧ ∀ m : JDict,
          YisonaLocal.loadData (YisonaLocal.FileContent.parsed (JVal.obj m))
            = JVal.obj m)
    ∧ (∀ (m : JDict) (p : String) (v : JVal) (persistOk : Bool),
        YisonaLocal.create_json m p v persistOk
          = YisonaLocal.write_json m p v persistOk)
    ∧ (∀ (m : JDict) (p : String) (v : JVal) (persistOk : Bool) (i : Nat),
        i < (splitDot p).length →
        ∃ mm : JDict,
          getPath (JVal.obj (YisonaLocal.write_json m p v persistOk).1)
            ((splitDot p).take i) = JVal.obj mm)
    ∧ (∀ (m : JDict) (p : String) (dv : JVal) (persistOk : Bool) (i : Nat),
        i < (splitDot p).length →
        ∃ mm : JDict,
          getPath (JVal.obj (YisonaLocal.cc m p dv persistOk).1)
            ((splitDot p).take i) = JVal.obj mm) := by
  refine ⟨⟨rfl, rfl, fun m => rfl⟩, fun m p v persistOk => rfl, ?_, ?_⟩
  · intro m p v persistOk i h
    exact setPath_ancestor_obj (splitDot p) m v i h
  · intro m p dv persistOk i h
    exact ccPath_ancestor_obj (splitDot p) m dv i h

theorem c5_root_mapping_witness :
    1 < (splitDot "a.b").length
      ∧ (∃ mm : JDict,
          getPath (JVal.obj (YisonaLocal.write_json [("a", JVal.vint 3)] "a.b"
            (JVal.vint 0) true).1) ((splitDot "a.b").take 1) = JVal.obj mm)
      ∧ (∃ mm : JDict,
          getPath (JVal.obj (YisonaLocal.cc [("a", JVal.vint 3)] "a.b"
            (JVal.vint 0) true).1) ((splitDot "a.b").take 1) = JVal.obj mm) := by
  refine ⟨by decide, ?_, ?_⟩
  · exact c5_root_mapping_amended.2.2.1 [("a", JVal.vint 3)] "a.b"
      (JVal.vint 0) true 1 (by decide)
  · exact c5_root_mapping_amended.2.2.2 [("a", JVal.vint 3)] "a.b"
      (JVal.vint 0) true 1 (by decide)

/-- C6: constructing on a missing backing file yields the empty mapping as
the in-memory document, and so does a file holding syntactically invalid
JSON; both exceptions are caught inside `__init__` (only a message is
printed), which the totality of `loadData` over `FileContent` reflects. -/
theorem c6_load_missing_invalid_empty :
    YisonaLocal.loadData YisonaLocal.FileContent.missing = JVal.obj []
      ∧ YisonaLocal.loadData YisonaLocal.FileContent.invalid = JVal.obj [] :=
  ⟨rfl, rfl⟩

/-- C7: the remote `cc` treats an existing key whose stored value is `None`
as absent — it writes the default and returns `false` ("did not exist") —
while the local `cc` decides by key presence in the parent mapping alone and
returns `true` for any present key (its value included `None`) without
modifying the document. -/
theorem c7_cc_null_semantics_drift :
    (∀ (m : JDict) (key : String) (dv : JVal), key ≠ "" →
      dictGet m key = some JVal.null →
      YisonaConnect.cc (YisonaConnect.HttpResult.ok (JVal.obj m)) key dv
        = (false, true))
    ∧ (∀ (lm : JDict) (p : String) (dv : JVal) (persistOk : Bool),
        terminalAbsent lm (splitDot p) = false →
        YisonaLocal.cc lm p dv persistOk = (lm, true)) := by
  constructor
  · intro m key dv hk hg
    simp [YisonaConnect.cc, YisonaConnect.get_json, hk, hg]
  · intro lm p dv persistOk h
    exact ccPath_existed (splitDot p) lm dv h

theorem c7_cc_null_semantics_witness :
    YisonaConnect.cc (YisonaConnect.HttpResult.ok
        (JVal.obj [("k", JVal.null)])) "k" (JVal.vint 0) = (false, true)
      ∧ YisonaLocal.cc [("k", JVal.null)] "k" (JVal.vint 0) true
        = ([("k", JVal.null)], true) :=
  ⟨c7_cc_null_semantics_drift.1 [("k", JVal.null)] "k" (JVal.vint 0)
      (by decide) rfl,
   c7_cc_null_semantics_drift.2 [("k", JVal.null)] "k" (JVal.vint 0) true rfl⟩

/-- C8: on an HTTP 200 response, the remote `get_json(key)` is a flat lookup
of the literal dot-path string in the parsed response mapping, not a nested
traversal: a body `{"x.y": 42}` yields `42`, a body `{"x": {"y": 42}}` yields
`None` — while the local `get_json` on the same nested document yields `42`. -/
theorem c8_remote_flat_lookup :
    (∀ (body : JDict) (key : String), key ≠ "" →
      YisonaConnect.get_json (YisonaConnect.HttpResult.ok (JVal.obj body)) key
        = (dictGet body key).getD JVal.null)
    ∧ YisonaConnect.get_json
        (YisonaConnect.HttpResult.ok (JVal.obj [("x.y", JVal.vint 42)])) "x.y"
      = JVal.vint 42
    ∧ YisonaConnect.get_json
        (YisonaConnect.HttpResult.ok
          (JVal.obj [("x", JVal.obj [("y", JVal.vint 42)])])) "x.y"
      = JVal.null
    ∧ YisonaLocal.get_json (JVal.obj [("x", JVal.obj [("y", JVal.vint 42)])])
        "x.y" = JVal.vint 42 := by
  refine ⟨?_, by rfl, by rfl, by rfl⟩
  intro body key hk
  simp [YisonaConnect.get_json, hk]

theorem c8_remote_flat_lookup_witness :
    YisonaConnect.get_json
        (YisonaConnect.HttpResult.ok (JVal.obj [("x.y", JVal.vint 42)])) "x.y"
      = (dictGet [("x.y", JVal.vint 42)] "x.y").getD JVal.null :=
  c8_remote_flat_lookup.1 [("x.y", JVal.vint 42)] "x.y" (by decide)

/-- C9 counterexample: when `cursor.execute` raises (a caught query error),
the connection has been opened but `connection.close()` is never reached —
the `except` handler only prints and returns `[]` — refuting "the connection,
once opened, is released before the call returns … on the caught-error
path". -/
theorem c9_connection_not_closed_counterexample :
    YisonaLocal.SqlEvent.connectOk
        ∈ (YisonaLocal.get_sqlite YisonaLocal.SqlOutcome.execErr).1
      ∧ YisonaLocal.SqlEvent.close
        ∉ (YisonaLocal.get_sqlite YisonaLocal.SqlOutcome.execErr).1 := by
  decide

/-- C9 (amended): `get_sqlite` closes the connection before returning on the
success path only; on the caught-error paths after a successful connect
(execute or fetch failure) no close is executed — the connection is left to
interpreter finalization — and the call returns the empty list. -/
theorem c9_connection_release_amended :
    (∀ rows : List (List JVal),
      YisonaLocal.SqlEvent.close
        ∈ (YisonaLocal.get_sqlite (YisonaLocal.SqlOutcome.ok rows)).1)
    ∧ YisonaLocal.SqlEvent.close
        ∉ (YisonaLocal.get_sqlite YisonaLocal.SqlOutcome.execErr).1
    ∧ (YisonaLocal.get_sqlite YisonaLocal.SqlOutcome.execErr).2 = []
    ∧ YisonaLocal.SqlEvent.close
        ∉ (YisonaLocal.get_sqlite YisonaLocal.SqlOutcome.fetchErr).1
    ∧ (YisonaLocal.get_sqlite YisonaLocal.SqlOutcome.fetchErr).2 = [] := by
  refine ⟨?_, by decide, rfl, by decide, rfl⟩
  intro rows
  simp [YisonaLocal.get_sqlite]

/-- C10: when the `json.dump` persistence step inside `write_json` fails with
`IOError`, the call returns `false` but the in-memory document was already
mutated, so `get_json(p)` returns the written value; likewise the creation
branch of `cc` has already stored the default (and returns `false`) when its
persistence step fails. -/
theorem c10_failed_persist_mutates_memory (m : JDict) (p : String)
    (v dv : JVal) :
    ((YisonaLocal.write_json m p v false).2 = false
      ∧ YisonaLocal.get_json
          (JVal.obj (YisonaLocal.write_json m p v false).1) p = v)
    ∧ (terminalAbsent m (splitDot p) = true →
        (YisonaLocal.cc m p dv false).2 = false
          ∧ YisonaLocal.get_json
              (JVal.obj (YisonaLocal.cc m p dv false).1) p = dv) := by
  refine ⟨⟨rfl, getPath_setPath (splitDot p) m v (splitDot_ne_nil p)⟩, ?_⟩
  intro h
  exact ccPath_created (splitDot p) m dv h

theorem c10_failed_persist_witness :
    (YisonaLocal.write_json [] "x" (JVal.vint 1) false).2 = false
      ∧ YisonaLocal.get_json
          (JVal.obj (YisonaLocal.write_json [] "x" (JVal.vint 1) false).1) "x"
        = JVal.vint 1
      ∧ (YisonaLocal.cc [] "x" (JVal.vint 5) false).2 = false
      ∧ YisonaLocal.get_json
          (JVal.obj (YisonaLocal.cc [] "x" (JVal.vint 5) false).1) "x"
        = JVal.vint 5 := by
  have h := c10_failed_persist_mutates_memory [] "x" (JVal.vint 1)
    (JVal.vint 5)
  have h2 := h.2 (by rfl)
  exact ⟨h.1.1, h.1.2, h2.1, h2.2⟩
